import Mathlib

/-!
Verification of the PyBryt execution tracer (`pybryt/execution/tracing.py`) and
the footprint-combination contract (`pybryt/student.py`,
`MemoryFootprint.combine`) against its natural-language specification.

The embedding models Python values as a flat inductive `PyObj`, the collector
state created by `create_collector` as `CollectorState`, and the trace hook
`collect_intermidiate_results` as a state transformer returning
`Option CollectorState`, where `none` models an uncaught exception escaping
the hook into the host runtime.
-/

set_option maxRecDepth 4000

/-- Model of a Python runtime value.  Values are identified by their content:
two structurally equal Python objects pickle to the same bytes.  The
constructors cover the categories the tracer distinguishes: plain data
(`vnone`, `vint`, `vstr`, `vbool`, `vobj`), the categories in the default
`skip_types` list of `create_collector` (`vtype` for `type`, `vbuiltin` for
`type(len)`, `vmodule` for `ModuleType`, `vfunction` for `FunctionType`), and
values whose pickling raises (`vunpicklable`, e.g. generators or open
handles). -/
inductive PyObj where
  | vnone : PyObj
  | vint (n : Int) : PyObj
  | vstr (s : String) : PyObj
  | vbool (b : Bool) : PyObj
  | vobj (id : Nat) : PyObj
  | vtype (id : Nat) : PyObj
  | vbuiltin (id : Nat) : PyObj
  | vmodule (id : Nat) : PyObj
  | vfunction (id : Nat) : PyObj
  | vunpicklable (id : Nat) : PyObj
deriving DecidableEq

/-- The Python type (class) of a value, as tested by `type(val) in skip_types`
in `track_value` (tracing.py line 55). -/
inductive PyType where
  | noneType | intType | strType | boolType | objType
  | typeType | builtinType | moduleType | functionType | unpicklableType
deriving DecidableEq

/-- `type(val)`: the class of a `PyObj`. -/
def type_of : PyObj → PyType
  | .vnone => .noneType
  | .vint _ => .intType
  | .vstr _ => .strType
  | .vbool _ => .boolType
  | .vobj _ => .objType
  | .vtype _ => .typeType
  | .vbuiltin _ => .builtinType
  | .vmodule _ => .moduleType
  | .vfunction _ => .functionType
  | .vunpicklable _ => .unpicklableType

/-- The default `skip_types` argument of `create_collector`:
`[type, type(len), ModuleType, FunctionType]` (tracing.py line 19). -/
def defaultSkipTypes : List PyType :=
  [.typeType, .builtinType, .moduleType, .functionType]

/-- Modelled from the spec: the Content Addresser (spec 4.1) realised by
`pybryt.utils.pickle_and_hash`, whose source file is not under `src/`.  It
canonically serializes a value so that structurally equal values hash alike
and fails cleanly (`none`) for unserializable values; in this content-level
model the canonical form of a picklable value is the value itself. -/
def pickle_and_hash (v : PyObj) : Option PyObj :=
  match v with
  | .vunpicklable _ => none
  | v => some v

/-- `copy(val)` from the `copy` module (tracing.py line 64): a shallow copy
produces a new object with the same content.  At the level of immutable value
content the copy equals the original; the aliasing consequences of the copy
being shallow rather than deep are modelled separately on the heap model
below (`copyShallow`). -/
def copy (v : PyObj) : PyObj := v

/-- The mutable state owned by one collector made by `create_collector`:
`observed` (the footprint list of `(value, timestamp)` pairs), the
`hashes` seen-set, the step `counter` (a one-element list in the source so the
closure can mutate it), and the `vars_not_found` pending-assignment map keyed
by `filename + function name`. -/
structure CollectorState where
  observed : List (PyObj × Nat)
  hashes : List PyObj
  counter : Nat
  vars_not_found : List (String × List (String × Nat))
deriving DecidableEq

/-- The state `create_collector` starts from: `observed = []`,
`hashes = set()`, `counter = [0]`, `vars_not_found = {}`. -/
def initState : CollectorState :=
  { observed := [], hashes := [], counter := 0, vars_not_found := [] }

/-- `track_value` (tracing.py lines 44-69).  Skips values whose type is in
`skip_types`; pickle-hashes the value, defaulting `seen_at` to the current
counter; appends `(copy(val), seen_at)` and records the hash only when the
hash is unseen.  The surrounding `try/except` makes every failure (modelled
by `pickle_and_hash` returning `none`) a silent no-op, so the function is
total. -/
def track_value (skip_types : List PyType) (s : CollectorState) (val : PyObj)
    (seen_at : Option Nat) : CollectorState :=
  if type_of val ∈ skip_types then s
  else
    match pickle_and_hash val with
    | none => s
    | some h =>
      let seen := seen_at.getD s.counter
      if h ∈ s.hashes then s
      else { s with observed := s.observed ++ [(copy val, seen)],
                    hashes := h :: s.hashes }

/-! ### Tokenization of a source line (tracing.py lines 89-93) -/

/-- Python's `\w` character class restricted to ASCII: alphanumeric or
underscore, as produced by `char.isalnum() or char == '_'`. -/
def isWordChar (c : Char) : Bool := c.isAlphanum || c = '_'

/-- Python's `\s` character class (ASCII): space, tab, newline, carriage
return, vertical tab, form feed. -/
def isSpaceChar (c : Char) : Bool :=
  c = ' ' || c = '\t' || c = '\n' || c = '\r' || c = '\x0b' || c = '\x0c'

/-- `l₁` begins with `p` (used for `co_filename.startswith("<ipython")`). -/
def listStartsWith : List Char → List Char → Bool
  | [], _ => true
  | _ :: _, [] => false
  | p :: ps, c :: cs => p = c && listStartsWith ps cs

/-- Python's `str.split("\n")`: splits at every newline, keeping empty
pieces, and yields `[""]` for the empty string. -/
def splitNL : List Char → List String
  | [] => [""]
  | c :: cs =>
    if c = '\n' then "" :: splitNL cs
    else
      match splitNL cs with
      | s :: rest => String.mk (c :: s.toList) :: rest
      | [] => [String.mk [c]]

/-- One pass of the tokenizer: every character outside the token alphabet is
replaced by a newline and the result is split on newlines
(`"".join(char if char.isalnum() or char == '_' [or char == '.'] else "\n"
for char in line).split("\n")`). -/
def tokenRuns (withDot : Bool) (line : List Char) : List String :=
  splitNL (line.map fun c =>
    if isWordChar c || (withDot && c = '.') then c else '\n')

/-- Set-union of the two token passes: the source stores the runs in a Python
`set`, so duplicates collapse; iteration order is irrelevant because the set
is sorted afterwards. -/
def dedupStr : List String → List String
  | [] => []
  | x :: xs =>
    let ds := dedupStr xs
    if x ∈ ds then ds else x :: ds

/-- Lexicographic comparison of character lists by code point. -/
def leChars : List Char → List Char → Bool
  | [], _ => true
  | _ :: _, [] => false
  | a :: as, b :: bs => if a = b then leChars as bs else decide (a < b)

/-- String order used by Python's `sorted` on the token set. -/
def leStr (a b : String) : Bool := leChars a.toList b.toList

/-- Insertion into a sorted list of strings. -/
def insertStr (x : String) : List String → List String
  | [] => [x]
  | y :: ys => if leStr x y then x :: y :: ys else y :: insertStr x ys

/-- Sorting the token set (`tokens = sorted(tokens)`, tracing.py line 93).
On a duplicate-free list any correct sort agrees with Python's `sorted`. -/
def sortStr : List String → List String
  | [] => []
  | x :: xs => insertStr x (sortStr xs)

/-- The tokens extracted from one source line: bare identifier runs, dotted
runs, collapsed to a set and sorted (tracing.py lines 90-93). -/
def tokensOf (line : List Char) : List String :=
  sortStr (dedupStr (tokenRuns false line ++ tokenRuns true line))

/-- The assignment-statement pattern `re.match(r"\s*(\w+)\s=.*", line)`
(tracing.py line 113): optional leading whitespace, a nonempty word-character
run (the captured identifier), then exactly one whitespace character followed
by `=`.  Because the three character classes involved are disjoint, maximal
munch coincides with the regex's backtracking semantics. -/
def matchAssign (line : List Char) : Option String :=
  let rest := line.dropWhile isSpaceChar
  let ident := rest.takeWhile isWordChar
  let rest2 := rest.drop ident.length
  if ident.isEmpty then none
  else
    match rest2 with
    | c :: d :: _ => if isSpaceChar c && d = '=' then some (String.mk ident) else none
    | _ => none

/-! ### Trace events and the hook -/

/-- The event kinds delivered by `sys.settrace`. -/
inductive EvKind where
  | call | line | ret | exc
deriving DecidableEq

/-- One trace event as seen by `collect_intermidiate_results`: the frame's
code filename and name, the source text of the current line (via
`linecache.getline`), the frame's local and global bindings, the filename of
`frame.f_back` (`none` models `f_back is None`), the event kind, the `arg`
(the returned value for `return` events, `None` otherwise), and the value the
global `_TRACKING_DISABLED` flag has when the event is delivered. -/
structure TraceEventRec where
  filename : String
  funcname : String
  line : String
  locals : List (String × PyObj)
  globals : List (String × PyObj)
  back_filename : Option String
  event : EvKind
  arg : PyObj
  tracking_disabled : Bool
deriving DecidableEq

/-- A filename is a trace origin when it starts with `"<ipython"` or appears
in `addl_filenames` (tracing.py lines 76, 86, 122). -/
def inOrigins (addl : List String) (fn : String) : Bool :=
  listStartsWith "<ipython".toList fn.toList || addl.contains fn

/-- `name = frame.f_code.co_filename + frame.f_code.co_name`
(tracing.py line 84): the call-site identity keying `vars_not_found`. -/
def frameName (fr : TraceEventRec) : String := fr.filename ++ fr.funcname

/-- The type of the dynamic-evaluation capability `eval(t, globals, locals)`
used for dotted tokens (tracing.py line 98); `none` models any evaluation
failure, which the source swallows per token. -/
def EvalFn : Type :=
  String → List (String × PyObj) → List (String × PyObj) → Option PyObj

/-- Processing of a single token (tracing.py lines 95-110): dotted tokens are
dynamically evaluated and tracked on success; bare tokens are looked up in
the frame's locals, then globals. -/
def processToken (evalD : EvalFn) (skip_types : List PyType)
    (fr : TraceEventRec) (s : CollectorState) (t : String) : CollectorState :=
  if t.toList.contains '.' then
    match evalD t fr.globals fr.locals with
    | some v => track_value skip_types s v none
    | none => s
  else
    match List.lookup t fr.locals with
    | some v => track_value skip_types s v none
    | none =>
      match List.lookup t fr.globals with
      | some v => track_value skip_types s v none
      | none => s

/-- The token loop over one source line (tracing.py lines 89-110). -/
def processLineTokens (evalD : EvalFn) (skip_types : List PyType)
    (fr : TraceEventRec) (s : CollectorState) : CollectorState :=
  (tokensOf fr.line.toList).foldl (processToken evalD skip_types fr) s

/-- `vars_not_found[name].append((ident, counter[0]))`, creating the key if
absent (tracing.py lines 115-117). -/
def pushPending (key ident : String) (step : Nat) :
    List (String × List (String × Nat)) → List (String × List (String × Nat))
  | [] => [(key, [(ident, step)])]
  | (k, v) :: rest =>
    if k = key then (k, v ++ [(ident, step)]) :: rest
    else (k, v) :: pushPending key ident step rest

/-- `vars_not_found.pop(name)`: removal of a key from the pending map. -/
def removeKey (key : String) :
    List (String × List (String × Nat)) → List (String × List (String × Nat))
  | [] => []
  | (k, v) :: rest => if k = key then rest else (k, v) :: removeKey key rest

/-- The deferred-assignment push (tracing.py lines 112-117): when the line
matches the assignment pattern, the captured identifier is appended to the
pending list of the current call-site identity, timestamped with the current
counter. -/
def processAssignPush (fr : TraceEventRec) (s : CollectorState) : CollectorState :=
  match matchAssign fr.line.toList with
  | some x =>
    { s with vars_not_found := pushPending (frameName fr) x s.counter s.vars_not_found }
  | none => s

/-- Resolution of pending assignments at a `return` event (tracing.py lines
126-135): the returning call-site's pending list is popped and each
identifier is resolved in the frame's locals, then globals, and tracked with
the step captured at push time. -/
def resolvePending (skip_types : List PyType) (fr : TraceEventRec)
    (s : CollectorState) : CollectorState :=
  if fr.event = EvKind.ret then
    match List.lookup (frameName fr) s.vars_not_found with
    | some entries =>
      let s1 := { s with vars_not_found := removeKey (frameName fr) s.vars_not_found }
      entries.foldl (fun st p =>
        match List.lookup p.1 fr.locals with
        | some v => track_value skip_types st v (some p.2)
        | none =>
          match List.lookup p.1 fr.globals with
          | some v => track_value skip_types st v (some p.2)
          | none => st) s1
    | none => s
  else s

/-- The trace hook `collect_intermidiate_results` (tracing.py lines 72-137)
as a transformer of the collector state.  The step counter is advanced first
for every event whose frame is in the trace origins; then the
tracking-disabled flag stops all further processing; origin frames get token
extraction, the assignment push, and return-value tracking; non-origin
frames evaluate `frame.f_back.f_code.co_filename` — when `f_back` is `None`
this attribute access raises `AttributeError`, modelled by the result
`none` (an uncaught exception escaping the hook); finally pending
assignments of the returning call site are resolved. -/
def collect_intermidiate_results (evalD : EvalFn) (skip_types : List PyType)
    (addl_filenames : List String) (s : CollectorState) (fr : TraceEventRec) :
    Option CollectorState :=
  let s0 := if inOrigins addl_filenames fr.filename then
              { s with counter := s.counter + 1 } else s
  if fr.tracking_disabled then some s0
  else if inOrigins addl_filenames fr.filename then
    let s1 := if fr.event = EvKind.line ∨ fr.event = EvKind.ret then
                processAssignPush fr (processLineTokens evalD skip_types fr s0)
              else s0
    let s2 := if fr.event = EvKind.ret then
                track_value skip_types s1 fr.arg none
              else s1
    some (resolvePending skip_types fr s2)
  else
    match fr.back_filename with
    | none => none
    | some bf =>
      let s1 := if inOrigins addl_filenames bf = true ∧ fr.event = EvKind.ret then
                  track_value skip_types s0 fr.arg none
                else s0
      some (resolvePending skip_types fr s1)

/-- A whole traced execution: the hook is applied to each delivered event in
order.  When the hook raises (result `none`) the host runtime unsets the
trace function, so no further events are delivered and the footprint stays
as it was when the exception escaped. -/
def runHook (evalD : EvalFn) (skip_types : List PyType)
    (addl_filenames : List String) (s : CollectorState) :
    List TraceEventRec → CollectorState
  | [] => s
  | fr :: rest =>
    match collect_intermidiate_results evalD skip_types addl_filenames s fr with
    | some s1 => runHook evalD skip_types addl_filenames s1 rest
    | none => s

/-! ### Heap model of shallow copying (tracing.py line 64, `from copy import copy`)

The pure value model above identifies a value with its content; to express
what mutation of the traced program's objects does to a recorded snapshot,
objects are modelled as heap cells addressed by allocation index. -/

/-- A heap object: either an atom or a compound object holding references
(addresses) to other objects, like a Python list holds references to its
elements. -/
inductive HeapObj where
  | atom (n : Int) : HeapObj
  | cell (fields : List Nat) : HeapObj
deriving DecidableEq

/-- The heap: address `a` denotes `objs[a]`; allocation appends. -/
abbrev Heap : Type := List HeapObj

/-- Dereference an address. -/
def getObj (h : Heap) (a : Nat) : Option HeapObj := h[a]?

/-- Mutate the object at an address in place (what the traced program may do
to a value after it has been recorded). -/
def setObj (h : Heap) (a : Nat) (o : HeapObj) : Heap := List.set h a o

/-- `copy.copy`, the shallow copy used by `track_value` on line 64: a fresh
object is allocated whose top-level content — including the *references* held
in its fields — is that of the original.  Nested objects are shared, not
copied. -/
def copyShallow (h : Heap) (a : Nat) : Heap × Nat :=
  match getObj h a with
  | some o => (h ++ [o], h.length)
  | none => (h, a)

/-- The observable deep content of an object, serialized to a flat word the
way pickling flattens a value: an atom yields `[0, n]`, a compound object
yields `[1, arity]` followed by the serializations of its fields.  The fuel
bounds the dereferencing depth so the reading is total. -/
def deepContents (h : Heap) : Nat → Nat → Option (List Int)
  | 0, _ => none
  | fuel + 1, a =>
    match getObj h a with
    | some (.atom n) => some [0, n]
    | some (.cell fs) =>
      (fs.mapM (deepContents h fuel)).map fun ls => 1 :: (fs.length : Int) :: ls.flatten
    | none => none

/-! ### The suspension controller (tracing.py lines 143-211) -/

/-- The tracing state the suspension controller manipulates: the trace
function currently installed with `sys.settrace` (`none` when tracing is
off), the module global `TRACING_FUNC` remembered by `tracing_off`
(initially `None`, tracing.py line 16), and whether a frame with
`__PYBRYT_TRACING__` truthy exists on the stack (what `_get_tracing_frame`
finds).  Hook objects are opaque and identified by a number. -/
structure TracingState where
  sys_trace : Option Nat
  tracing_func : Option Nat
  tracing_frame : Bool
deriving DecidableEq

/-- `tracing_off` (tracing.py lines 154-179): with no tracing-active frame it
is a no-op; otherwise it remembers the installed hook in `TRACING_FUNC` and
executes `sys.settrace(None)` in the frame. -/
def tracing_off (st : TracingState) : TracingState :=
  if st.tracing_frame then
    { st with tracing_func := st.sys_trace, sys_trace := none }
  else st

/-- `tracing_on` (tracing.py lines 182-211): with no tracing-active frame it
is a no-op; otherwise it executes `sys.settrace(TRACING_FUNC)` in the frame,
installing whatever the module global currently holds — including `None`
when no `tracing_off` ever ran. -/
def tracing_on (st : TracingState) : TracingState :=
  if st.tracing_frame then
    { st with sys_trace := st.tracing_func }
  else st

/-! ### Footprint combination (student.py lines 140-159)

`StudentImplementation.combine` delegates to `MemoryFootprint.combine`,
whose defining module `pybryt/execution/memory_footprint.py` is not under
`src/`; the model below therefore follows the spec's words. -/

/-- Modelled from the spec: one record of a Footprint (spec 3,
`ObservedValue`): a value snapshot, its logical step, and its content
hash. -/
structure ObservedValue where
  snapshot : PyObj
  step : Nat
  contentHash : Nat
deriving DecidableEq

/-- Modelled from the spec: a Footprint (spec 3) as handed to `combine` — an
insertion-ordered sequence of records plus the final step counter of the
execution that built it. -/
structure MemoryFootprint where
  records : List ObservedValue
  stepCounter : Nat
deriving DecidableEq

/-- Every record's step offset by `k` (the running total of prior footprints'
step counts). -/
def offsetRecords (k : Nat) (rs : List ObservedValue) : List ObservedValue :=
  rs.map fun r => { r with step := r.step + k }

/-- Concatenation of the footprints' record lists in order, offsetting each
footprint's records by the sum of the step counters of the footprints before
it. -/
def concatOffset : List MemoryFootprint → Nat → List ObservedValue
  | [], _ => []
  | fp :: rest, off => offsetRecords off fp.records ++ concatOffset rest (off + fp.stepCounter)

/-- Re-deduplication of the combined sequence by content hash, keeping the
earliest-occurring record for any duplicate hash (earliest by combined
order); `seen` carries the hashes already kept. -/
def dedupByHash : List ObservedValue → List Nat → List ObservedValue
  | [], _ => []
  | r :: rs, seen =>
    if r.contentHash ∈ seen then dedupByHash rs seen
    else r :: dedupByHash rs (r.contentHash :: seen)

/-- Modelled from the spec: `combine(footprints)` (spec 4.2) — concatenate
in chronological order with running step offsets, re-deduplicate across the
entire combined sequence by content hash keeping the earliest record, and
sum the step counters. -/
def MemoryFootprint.combine (fps : List MemoryFootprint) : MemoryFootprint :=
  { records := dedupByHash (concatOffset fps 0) [],
    stepCounter := (fps.map MemoryFootprint.stepCounter).sum }

/-! ### Invariant of collector states and concrete inputs used below -/

/-- The footprint invariant of a collector state: every observed value's hash
is recorded in the seen-set, no two observed values share a content hash, and
no observed value has a skipped type. -/
def footprintInv (skip_types : List PyType) (s : CollectorState) : Prop :=
  (∀ p ∈ s.observed, ∃ h, pickle_and_hash p.1 = some h ∧ h ∈ s.hashes) ∧
  s.observed.Pairwise (fun p q => pickle_and_hash p.1 ≠ pickle_and_hash q.1) ∧
  (∀ p ∈ s.observed, type_of p.1 ∉ skip_types)

/-- A dynamic evaluator that fails on every dotted expression (used to
instantiate the hook on concrete runs where no dotted token resolves). -/
def noEval : EvalFn := fun _ _ _ => none

/-- The `line` event for the statement `x = 7` inside an IPython cell, before
the assignment has executed (`x` is not yet bound). -/
def evAssign : TraceEventRec :=
  { filename := "<ipython-input-2-abc>", funcname := "f", line := "x = 7",
    locals := [], globals := [], back_filename := some "<ipython-input-1-xyz>",
    event := EvKind.line, arg := PyObj.vnone, tracking_disabled := false }

/-- The `line` event for the following statement `return x`, with `x` now
bound to `7`. -/
def evRetLine : TraceEventRec :=
  { evAssign with line := "return x", locals := [("x", PyObj.vint 7)] }

/-- The `return` event fired at the line `return x`, returning `7`. -/
def evRet : TraceEventRec :=
  { evRetLine with event := EvKind.ret, arg := PyObj.vint 7 }

/-- A `return` event at a line that does not mention `x` (`return 0`), with
`x` bound to `7` in the returning frame. -/
def evRetZero : TraceEventRec :=
  { evAssign with
    line := "return 0"
    locals := [("x", PyObj.vint 7)]
    event := EvKind.ret
    arg := PyObj.vint 0 }

/-- A collector state in which one pending assignment `(x, 1)` awaits the
return of the routine of `evAssign`. -/
def pendingState : CollectorState :=
  { observed := [], hashes := [], counter := 1,
    vars_not_found := [("<ipython-input-2-abc>f", [("x", 1)])] }

/-- An event delivered from a frame outside the trace origins whose
`f_back` is `None`. -/
def evNoBack : TraceEventRec :=
  { filename := "/usr/lib/helper.py", funcname := "g", line := "pass",
    locals := [], globals := [], back_filename := none,
    event := EvKind.line, arg := PyObj.vnone, tracking_disabled := false }

/-- A collector state that has already seen the value `3`. -/
def sampleSeen : CollectorState :=
  { observed := [(PyObj.vint 3, 0)], hashes := [PyObj.vint 3], counter := 1,
    vars_not_found := [] }

/-- A two-object heap: address 0 is a compound object whose single field
references address 1, an atom `5` — the picture of a Python list `[5]`. -/
def heap0 : Heap := [HeapObj.cell [1], HeapObj.atom 5]

/-- The tracing state before any suspension: a collector hook (number `0`)
is installed, `TRACING_FUNC` still holds its initial `None`, and a
tracing-active frame is on the stack. -/
def preTracing : TracingState :=
  { sys_trace := some 0, tracing_func := none, tracing_frame := true }

/-- A first footprint: two records with hashes 10 and 20, two steps. -/
def combFootA : MemoryFootprint :=
  { records := [⟨PyObj.vint 1, 0, 10⟩, ⟨PyObj.vint 2, 1, 20⟩], stepCounter := 2 }

/-- A second footprint: a record whose hash 20 also occurs in `combFootA`,
and a fresh record with hash 30; three steps. -/
def combFootB : MemoryFootprint :=
  { records := [⟨PyObj.vint 3, 0, 20⟩, ⟨PyObj.vint 4, 1, 30⟩], stepCounter := 3 }

/-- The collector state reached mid-way through the `evRetZero` return event
(after its token and return-value processing), used to instantiate the
deferred-resolution theorem. -/
def resolvedMidState : CollectorState :=
  { observed := [(PyObj.vint 0, 2)], hashes := [PyObj.vint 0], counter := 2,
    vars_not_found := [("<ipython-input-2-abc>f", [("x", 1)])] }

/-! ### Helper lemmas -/

theorem foldl_preserve {α σ : Type} (P : σ → Prop) (f : σ → α → σ)
    (hstep : ∀ s a, P s → P (f s a)) :
    ∀ (l : List α) (s : σ), P s → P (l.foldl f s) := by
  intro l
  induction l with
  | nil => intro s hs; exact hs
  | cons a as ih => intro s hs; exact ih (f s a) (hstep s a hs)

theorem track_value_counter (skip_types : List PyType) (s : CollectorState)
    (v : PyObj) (t : Option Nat) :
    (track_value skip_types s v t).counter = s.counter := by
  unfold track_value
  split
  · rfl
  · split
    · rfl
    · split <;> rfl

theorem track_value_vars (skip_types : List PyType) (s : CollectorState)
    (v : PyObj) (t : Option Nat) :
    (track_value skip_types s v t).vars_not_found = s.vars_not_found := by
  unfold track_value
  split
  · rfl
  · split
    · rfl
    · split <;> rfl

theorem track_value_inv (skip_types : List PyType) (s : CollectorState)
    (v : PyObj) (t : Option Nat) (hs : footprintInv skip_types s) :
    footprintInv skip_types (track_value skip_types s v t) := by
  obtain ⟨h1, h2, h3⟩ := hs
  unfold track_value
  split
  · exact ⟨h1, h2, h3⟩
  · rename_i hskip
    split
    · exact ⟨h1, h2, h3⟩
    · rename_i hv hph
      split
      · exact ⟨h1, h2, h3⟩
      · rename_i hmem
        refine ⟨?_, ?_, ?_⟩
        · intro p hp
          rcases List.mem_append.mp hp with hp | hp
          · obtain ⟨hh, hph2, hhm⟩ := h1 p hp
            exact ⟨hh, hph2, List.mem_cons_of_mem _ hhm⟩
          · have hpe : p = (copy v, t.getD s.counter) := by simpa using hp
            subst hpe
            exact ⟨hv, by simpa [copy] using hph, List.mem_cons_self _ _⟩
        · rw [List.pairwise_append]
          refine ⟨h2, List.pairwise_singleton _ _, ?_⟩
          intro a ha b hb
          have hbe : b = (copy v, t.getD s.counter) := by simpa using hb
          subst hbe
          obtain ⟨hh, hph2, hhm⟩ := h1 a ha
          rw [hph2]
          simp only [copy, hph]
          intro hcontra
          have : hh = hv := by injection hcontra
          subst this
          exact hmem hhm
        · intro p hp
          rcases List.mem_append.mp hp with hp | hp
          · exact h3 p hp
          · have hpe : p = (copy v, t.getD s.counter) := by simpa using hp
            subst hpe
            simpa [copy] using hskip

theorem processToken_inv (evalD : EvalFn) (skip_types : List PyType)
    (fr : TraceEventRec) (s : CollectorState) (t : String)
    (hs : footprintInv skip_types s) :
    footprintInv skip_types (processToken evalD skip_types fr s t) := by
  unfold processToken
  split
  · split
    · exact track_value_inv _ _ _ _ hs
    · exact hs
  · split
    · exact track_value_inv _ _ _ _ hs
    · split
      · exact track_value_inv _ _ _ _ hs
      · exact hs

theorem processToken_side (evalD : EvalFn) (skip_types : List PyType)
    (fr : TraceEventRec) (s : CollectorState) (t : String) :
    (processToken evalD skip_types fr s t).vars_not_found = s.vars_not_found ∧
    (processToken evalD skip_types fr s t).counter = s.counter := by
  unfold processToken
  split
  · split
    · exact ⟨track_value_vars _ _ _ _, track_value_counter _ _ _ _⟩
    · exact ⟨rfl, rfl⟩
  · split
    · exact ⟨track_value_vars _ _ _ _, track_value_counter _ _ _ _⟩
    · split
      · exact ⟨track_value_vars _ _ _ _, track_value_counter _ _ _ _⟩
      · exact ⟨rfl, rfl⟩

theorem processLineTokens_inv (evalD : EvalFn) (skip_types : List PyType)
    (fr : TraceEventRec) (s : CollectorState)
    (hs : footprintInv skip_types s) :
    footprintInv skip_types (processLineTokens evalD skip_types fr s) := by
  unfold processLineTokens
  exact foldl_preserve _ _ (fun s t h => processToken_inv evalD skip_types fr s t h) _ s hs

theorem processLineTokens_side (evalD : EvalFn) (skip_types : List PyType)
    (fr : TraceEventRec) (s : CollectorState) :
    (processLineTokens evalD skip_types fr s).vars_not_found = s.vars_not_found ∧
    (processLineTokens evalD skip_types fr s).counter = s.counter := by
  unfold processLineTokens
  have := foldl_preserve
    (fun st : CollectorState =>
      st.vars_not_found = s.vars_not_found ∧ st.counter = s.counter)
    (processToken evalD skip_types fr)
    (fun st t h => by
      obtain ⟨hv, hc⟩ := processToken_side evalD skip_types fr st t
      exact ⟨hv.trans h.1, hc.trans h.2⟩)
    (tokensOf fr.line.toList) s ⟨rfl, rfl⟩
  exact this

theorem processAssignPush_inv (skip_types : List PyType) (fr : TraceEventRec)
    (s : CollectorState) (hs : footprintInv skip_types s) :
    footprintInv skip_types (processAssignPush fr s) := by
  unfold processAssignPush
  split
  · exact hs
  · exact hs

theorem resolvePending_inv (skip_types : List PyType) (fr : TraceEventRec)
    (s : CollectorState) (hs : footprintInv skip_types s) :
    footprintInv skip_types (resolvePending skip_types fr s) := by
  unfold resolvePending
  split
  · split
    · refine foldl_preserve _ _ (fun st p h => ?_) _ _ hs
      dsimp only
      split
      · exact track_value_inv _ _ _ _ h
      · split
        · exact track_value_inv _ _ _ _ h
        · exact h
    · exact hs
  · exact hs

theorem collect_inv (evalD : EvalFn) (skip_types : List PyType)
    (addl_filenames : List String) (s : CollectorState) (fr : TraceEventRec)
    (s' : CollectorState)
    (hrun : collect_intermidiate_results evalD skip_types addl_filenames s fr = some s')
    (hs : footprintInv skip_types s) :
    footprintInv skip_types s' := by
  unfold collect_intermidiate_results at hrun
  have hs0 : footprintInv skip_types
      (if inOrigins addl_filenames fr.filename then
        { s with counter := s.counter + 1 } else s) := by
    split
    · exact hs
    · exact hs
  set s0 := (if inOrigins addl_filenames fr.filename then
    { s with counter := s.counter + 1 } else s) with hs0def
  dsimp only at hrun
  split at hrun
  · have he := Option.some.inj hrun
    subst he
    exact hs0
  · split at hrun
    · have he := Option.some.inj hrun
      subst he
      refine resolvePending_inv _ _ _ ?_
      split
      · refine track_value_inv _ _ _ _ ?_
        split
        · exact processAssignPush_inv _ _ _ (processLineTokens_inv _ _ _ _ hs0)
        · exact hs0
      · split
        · exact processAssignPush_inv _ _ _ (processLineTokens_inv _ _ _ _ hs0)
        · exact hs0
    · split at hrun
      · exact Option.noConfusion hrun
      · have he := Option.some.inj hrun
        subst he
        refine resolvePending_inv _ _ _ ?_
        split
        · exact track_value_inv _ _ _ _ hs0
        · exact hs0

theorem runHook_inv (evalD : EvalFn) (skip_types : List PyType)
    (addl_filenames : List String) :
    ∀ (evs : List TraceEventRec) (s : CollectorState),
      footprintInv skip_types s →
      footprintInv skip_types (runHook evalD skip_types addl_filenames s evs) := by
  intro evs
  induction evs with
  | nil => intro s hs; exact hs
  | cons fr rest ih =>
    intro s hs
    unfold runHook
    split
    · rename_i s1 hcol
      exact ih s1 (collect_inv _ _ _ _ _ _ hcol hs)
    · exact hs

theorem initState_inv (skip_types : List PyType) : footprintInv skip_types initState := by
  refine ⟨?_, ?_, ?_⟩ <;> simp [initState, footprintInv]

/-- C1: every footprint built by a collector from `create_collector` has
pairwise distinct content hashes among its recorded entries, and calling
`track_value` with a value whose pickle-hash is already in the seen-hash set
leaves the state unchanged, so the first observation of a given content is
the one kept. -/
theorem footprint_dedup_invariant :
    (∀ (evalD : EvalFn) (skip_types : List PyType) (addl_filenames : List String)
       (evs : List TraceEventRec),
       ((runHook evalD skip_types addl_filenames initState evs).observed).Pairwise
         (fun p q => pickle_and_hash p.1 ≠ pickle_and_hash q.1)) ∧
    (∀ (skip_types : List PyType) (s : CollectorState) (v : PyObj) (t : Option Nat)
       (h : PyObj), pickle_and_hash v = some h → h ∈ s.hashes →
       track_value skip_types s v t = s) := by
  constructor
  · intro evalD skip_types addl evs
    exact (runHook_inv evalD skip_types addl evs initState (initState_inv skip_types)).2.1
  · intro skip_types s v t h hph hmem
    unfold track_value
    split
    · rfl
    · rw [hph]
      dsimp only
      rw [if_pos hmem]

/-- Witness for C1 at a concrete input: hash of `3` is already seen in
`sampleSeen`, so tracking `3` again changes nothing. -/
theorem footprint_dedup_invariant_witness :
    pickle_and_hash (PyObj.vint 3) = some (PyObj.vint 3) ∧
    PyObj.vint 3 ∈ sampleSeen.hashes ∧
    track_value [] sampleSeen (PyObj.vint 3) none = sampleSeen :=
  ⟨rfl, by decide,
    footprint_dedup_invariant.2 [] sampleSeen (PyObj.vint 3) none (PyObj.vint 3) rfl
      (by decide)⟩

/-- C3: when the tracking-disabled flag is set, the hook advances the step
counter for events whose origin is in the trace origins and does nothing
else: no value is recorded, no assignment is deferred, and no error is
raised. -/
theorem suppression_blocks_processing
    (evalD : EvalFn) (skip_types : List PyType) (addl_filenames : List String)
    (s : CollectorState) (fr : TraceEventRec)
    (hdis : fr.tracking_disabled = true) :
    collect_intermidiate_results evalD skip_types addl_filenames s fr =
      some (if inOrigins addl_filenames fr.filename then
              { s with counter := s.counter + 1 } else s) := by
  unfold collect_intermidiate_results
  rw [hdis]
  rfl

/-- Witness for C3: a suppressed assignment-line event only advances the
counter. -/
theorem suppression_blocks_processing_witness :
    collect_intermidiate_results noEval defaultSkipTypes [] initState
        { evAssign with tracking_disabled := true } =
      some { initState with counter := 1 } :=
  (suppression_blocks_processing noEval defaultSkipTypes [] initState
    { evAssign with tracking_disabled := true } rfl).trans (by decide)

/-- C4: values whose type is in the collector's `skip_types` are never
tracked — `track_value` is a no-op on them regardless of whether hashing
would succeed, and no value of a skipped type ever appears in the observed
list of any footprint the hook builds. -/
theorem skip_types_enforcement :
    (∀ (skip_types : List PyType) (s : CollectorState) (v : PyObj) (t : Option Nat),
       type_of v ∈ skip_types → track_value skip_types s v t = s) ∧
    (∀ (evalD : EvalFn) (skip_types : List PyType) (addl_filenames : List String)
       (evs : List TraceEventRec) (p : PyObj × Nat),
       p ∈ (runHook evalD skip_types addl_filenames initState evs).observed →
       type_of p.1 ∉ skip_types) := by
  constructor
  · intro skip_types s v t hv
    unfold track_value
    rw [if_pos hv]
  · intro evalD skip_types addl evs p hp
    exact (runHook_inv evalD skip_types addl evs initState (initState_inv skip_types)).2.2 p hp

/-- Witness for C4: a function object is skipped, and the footprint of a
concrete run contains only the non-skipped value `7`. -/
theorem skip_types_enforcement_witness :
    type_of (PyObj.vfunction 0) ∈ defaultSkipTypes ∧
    track_value defaultSkipTypes sampleSeen (PyObj.vfunction 0) none = sampleSeen ∧
    (PyObj.vint 7, 1) ∈ (runHook noEval defaultSkipTypes [] initState [evRetLine]).observed ∧
    type_of (PyObj.vint 7, 1).1 ∉ defaultSkipTypes :=
  ⟨by decide,
   skip_types_enforcement.1 defaultSkipTypes sampleSeen (PyObj.vfunction 0) none (by decide),
   by decide,
   skip_types_enforcement.2 noEval defaultSkipTypes [] [evRetLine] (PyObj.vint 7, 1)
     (by decide)⟩

/-- C8: when pickling or hashing of a value fails, `track_value` is a silent
no-op: the state — observed list and seen-hash set included — is returned
unchanged, and since the function is total in the model (the `try/except` in
the source), no exception propagates to traced code. -/
theorem track_value_hash_failure_noop
    (skip_types : List PyType) (s : CollectorState) (v : PyObj) (t : Option Nat)
    (hfail : pickle_and_hash v = none) :
    track_value skip_types s v t = s := by
  unfold track_value
  split
  · rfl
  · rw [hfail]

/-- Witness for C8: tracking an unpicklable value changes nothing. -/
theorem track_value_hash_failure_noop_witness :
    pickle_and_hash (PyObj.vunpicklable 0) = none ∧
    track_value defaultSkipTypes sampleSeen (PyObj.vunpicklable 0) none = sampleSeen :=
  ⟨rfl,
   track_value_hash_failure_noop defaultSkipTypes sampleSeen (PyObj.vunpicklable 0) none rfl⟩

/-- C9 counterexample: an event from a frame outside the trace origins whose
`f_back` is `None` makes the hook evaluate `frame.f_back.f_code`, raising
`AttributeError` (modelled by the result `none`), so the hook does not
return normally on every event. -/
theorem hook_no_back_frame_counterexample :
    collect_intermidiate_results noEval defaultSkipTypes [] initState evNoBack = none := by
  decide

/-- C9 amended: the hook returns normally on every event whose tracking is
suppressed, or whose frame is inside the trace origins, or which has a
caller frame; only an unsuppressed event outside the origins with
`f_back = None` escapes with an exception. -/
theorem hook_total_with_back_or_origin
    (evalD : EvalFn) (skip_types : List PyType) (addl_filenames : List String)
    (s : CollectorState) (fr : TraceEventRec)
    (hcase : fr.tracking_disabled = true ∨ inOrigins addl_filenames fr.filename = true ∨
             fr.back_filename ≠ none) :
    (collect_intermidiate_results evalD skip_types addl_filenames s fr).isSome = true := by
  unfold collect_intermidiate_results
  dsimp only
  split
  · rfl
  · rename_i hnotdis
    split
    · rfl
    · rename_i hnotorig
      rcases hcase with hd | ho | hb
      · exact absurd hd hnotdis
      · exact absurd ho hnotorig
      · cases hback : fr.back_filename with
        | none => exact absurd hback hb
        | some bf => rfl

/-- Witness for C9: a return event from an untraced helper frame whose
caller is an IPython cell is processed normally. -/
theorem hook_total_with_back_or_origin_witness :
    ({ evNoBack with back_filename := some "<ipython-input-1-xyz>",
                     event := EvKind.ret, arg := PyObj.vint 9 } : TraceEventRec).back_filename ≠
      none ∧
    (collect_intermidiate_results noEval defaultSkipTypes [] initState
      { evNoBack with back_filename := some "<ipython-input-1-xyz>",
                      event := EvKind.ret, arg := PyObj.vint 9 }).isSome = true :=
  ⟨by decide,
   hook_total_with_back_or_origin noEval defaultSkipTypes [] initState
     { evNoBack with back_filename := some "<ipython-input-1-xyz>",
                     event := EvKind.ret, arg := PyObj.vint 9 }
     (Or.inr (Or.inr (by decide)))⟩

/-- C10: an identifier is deferred exactly when the line matches the pattern
of `re.match(r"\s*(\w+)\s=.*", ...)`: optional leading whitespace, an
identifier, exactly one whitespace character, then `=`.  Hence `x= 1` and
`x  = 1` defer nothing while the comparison `x == y` defers `x`; and on a
traced line event the pending list changes exactly according to the
match. -/
theorem assignment_pattern_push :
    matchAssign "x= 1".toList = none ∧
    matchAssign "x  = 1".toList = none ∧
    matchAssign "x == y".toList = some "x" ∧
    (∀ (fr : TraceEventRec) (s : CollectorState),
       (processAssignPush fr s).vars_not_found =
         match matchAssign fr.line.toList with
         | some x => pushPending (frameName fr) x s.counter s.vars_not_found
         | none => s.vars_not_found) ∧
    (∀ (evalD : EvalFn) (skip_types : List PyType) (addl_filenames : List String)
       (s : CollectorState) (fr : TraceEventRec),
       inOrigins addl_filenames fr.filename = true →
       fr.tracking_disabled = false →
       fr.event = EvKind.line →
       ∃ s', collect_intermidiate_results evalD skip_types addl_filenames s fr = some s' ∧
         s'.vars_not_found =
           (match matchAssign fr.line.toList with
            | some x => pushPending (frameName fr) x (s.counter + 1) s.vars_not_found
            | none => s.vars_not_found)) := by
  refine ⟨by decide, by decide, by decide, ?_, ?_⟩
  · intro fr s
    unfold processAssignPush
    cases hm : matchAssign fr.line.toList <;> simp [hm]
  · intro evalD skip_types addl s fr horig hdis hline
    unfold collect_intermidiate_results
    rw [horig, hdis, hline]
    dsimp only
    refine ⟨_, rfl, ?_⟩
    rw [if_pos (Or.inl rfl)]
    rw [if_neg (by decide)]
    unfold resolvePending
    rw [hline]
    rw [if_neg (by decide)]
    obtain ⟨hv, hc⟩ := processLineTokens_side evalD skip_types fr
      { s with counter := s.counter + 1 }
    unfold processAssignPush
    cases hm : matchAssign fr.line.toList with
    | none => simpa using hv
    | some x => simp [hm, hv, hc]

/-- Witness for C10: the line event for `x = 7` pushes `(x, 1)` onto the
pending list of its call site. -/
theorem assignment_pattern_push_witness :
    inOrigins [] evAssign.filename = true ∧
    evAssign.tracking_disabled = false ∧
    evAssign.event = EvKind.line ∧
    (∃ s', collect_intermidiate_results noEval defaultSkipTypes [] initState evAssign =
        some s' ∧
      s'.vars_not_found =
        (match matchAssign evAssign.line.toList with
         | some x =>
             pushPending (frameName evAssign) x (initState.counter + 1)
               initState.vars_not_found
         | none => initState.vars_not_found)) :=
  ⟨by decide, rfl, rfl,
   assignment_pattern_push.2.2.2.2 noEval defaultSkipTypes [] initState evAssign
     (by decide) rfl rfl⟩

/-- C6, evaluated at the failing input: with a tracing-active frame present,
an installed hook, and no prior `tracing_off` (so `TRACING_FUNC` is still
`None`), `tracing_on` is not a no-op — it executes `sys.settrace(None)` and
uninstalls the active hook, contradicting its own docstring ("If ...
`tracing_off` has not been called, no action is taken"). -/
theorem tracing_on_without_suspend_uninstalls :
    tracing_on preTracing ≠ preTracing ∧
    (tracing_on preTracing).sys_trace = none ∧
    preTracing.sys_trace = some 0 := by
  decide

/-- C5 counterexample: `track_value` snapshots with the *shallow*
`copy.copy` (tracing.py line 64), so mutating an object nested inside the
original after the snapshot was taken changes the snapshot's observable deep
content — the snapshot is not a deep, independent copy. -/
theorem shallow_copy_counterexample :
    copyShallow heap0 0 =
      ([HeapObj.cell [1], HeapObj.atom 5, HeapObj.cell [1]], 2) ∧
    deepContents (copyShallow heap0 0).1 3 (copyShallow heap0 0).2 = some [1, 1, 0, 5] ∧
    deepContents (setObj (copyShallow heap0 0).1 1 (HeapObj.atom 6)) 3
        (copyShallow heap0 0).2 = some [1, 1, 0, 6] ∧
    deepContents (setObj (copyShallow heap0 0).1 1 (HeapObj.atom 6)) 3
        (copyShallow heap0 0).2 ≠
      deepContents (copyShallow heap0 0).1 3 (copyShallow heap0 0).2 := by
  decide

/-- C5 amended: the snapshot taken by `copy.copy` is a fresh top-level
object with the original's top-level content, so mutating the original
object itself after the snapshot cannot change the snapshot's top-level
content; only mutation of shared nested objects can. -/
theorem shallow_copy_top_level (h : Heap) (a : Nat) (o o' : HeapObj)
    (hget : getObj h a = some o) :
    (copyShallow h a).2 = h.length ∧
    a ≠ (copyShallow h a).2 ∧
    getObj (copyShallow h a).1 (copyShallow h a).2 = some o ∧
    getObj (setObj (copyShallow h a).1 a o') (copyShallow h a).2 = some o := by
  have hlt : a < h.length := by
    unfold getObj at hget
    exact (List.getElem?_eq_some.mp hget).1
  unfold copyShallow
  rw [hget]
  dsimp only
  refine ⟨rfl, Nat.ne_of_lt hlt, ?_, ?_⟩
  · unfold getObj
    exact List.getElem?_concat_length h o
  · unfold getObj setObj
    rw [List.getElem?_set_ne (Nat.ne_of_lt hlt)]
    exact List.getElem?_concat_length h o

/-- Witness for C5 amended: snapshotting address 0 of `heap0` and then
overwriting address 0 leaves the snapshot's top-level content intact. -/
theorem shallow_copy_top_level_witness :
    getObj heap0 0 = some (HeapObj.cell [1]) ∧
    (copyShallow heap0 0).2 = heap0.length ∧
    0 ≠ (copyShallow heap0 0).2 ∧
    getObj (copyShallow heap0 0).1 (copyShallow heap0 0).2 = some (HeapObj.cell [1]) ∧
    getObj (setObj (copyShallow heap0 0).1 0 (HeapObj.atom 7)) (copyShallow heap0 0).2 =
      some (HeapObj.cell [1]) := by
  refine ⟨rfl, ?_⟩
  have := shallow_copy_top_level heap0 0 (HeapObj.cell [1]) (HeapObj.atom 7) rfl
  exact ⟨this.1, this.2.1, this.2.2.1, this.2.2.2⟩

/-- C2 counterexample: for the traced routine `x = 7` / `return x`, the
identifier `x` appears on the return line, so its value `7` is first
recorded by the token loop at the step of the `return x` line (step 2) and
the deferred resolution at the return event is then suppressed by content
dedup — no record carries the assignment-line step 1, contradicting the
claim. -/
theorem deferred_step_counterexample :
    matchAssign evAssign.line.toList = some "x" ∧
    (runHook noEval defaultSkipTypes [] initState [evAssign, evRetLine, evRet]).observed =
      [(PyObj.vint 7, 2)] ∧
    (PyObj.vint 7, 1) ∉
      (runHook noEval defaultSkipTypes [] initState [evAssign, evRetLine, evRet]).observed := by
  decide

/-- The hook on an unsuppressed return event inside the trace origins:
token extraction, assignment push, return-value tracking, then pending
resolution. -/
theorem collect_ret_origin (evalD : EvalFn) (skip_types : List PyType)
    (addl_filenames : List String) (s : CollectorState) (fr : TraceEventRec)
    (horig : inOrigins addl_filenames fr.filename = true)
    (hdis : fr.tracking_disabled = false)
    (hret : fr.event = EvKind.ret) :
    collect_intermidiate_results evalD skip_types addl_filenames s fr =
      some (resolvePending skip_types fr
        (track_value skip_types
          (processAssignPush fr
            (processLineTokens evalD skip_types fr { s with counter := s.counter + 1 }))
          fr.arg none)) := by
  unfold collect_intermidiate_results
  rw [horig, hdis, hret]
  simp

/-- C2 amended: at a return event, a pending assignment `(x, k)` resolving
to a value `v` is appended with the step `k` captured at the assignment
line — not the counter current at the return — provided `v`'s hash is still
unseen after the return line's own token and return-value processing; when
the hash has already been seen by then, the deferred record is suppressed by
dedup and nothing is appended for it. -/
theorem deferred_step_resolution
    (evalD : EvalFn) (skip_types : List PyType) (addl_filenames : List String)
    (s : CollectorState) (fr : TraceEventRec) (x : String) (k : Nat)
    (v h : PyObj) (sMid : CollectorState)
    (horig : inOrigins addl_filenames fr.filename = true)
    (hdis : fr.tracking_disabled = false)
    (hret : fr.event = EvKind.ret)
    (hmid : sMid = track_value skip_types
        (processAssignPush fr
          (processLineTokens evalD skip_types fr { s with counter := s.counter + 1 }))
        fr.arg none)
    (hpend : List.lookup (frameName fr) sMid.vars_not_found = some [(x, k)])
    (hloc : List.lookup x fr.locals = some v)
    (hskip : type_of v ∉ skip_types)
    (hph : pickle_and_hash v = some h) :
    ∃ s', collect_intermidiate_results evalD skip_types addl_filenames s fr = some s' ∧
      s'.observed = sMid.observed ++ (if h ∈ sMid.hashes then [] else [(v, k)]) := by
  refine ⟨_, collect_ret_origin evalD skip_types addl_filenames s fr horig hdis hret, ?_⟩
  rw [← hmid]
  unfold resolvePending
  rw [hret]
  rw [if_pos rfl]
  rw [hpend]
  dsimp only
  rw [List.foldl_cons]
  dsimp only
  rw [hloc]
  dsimp only
  unfold track_value
  rw [if_neg hskip, hph]
  dsimp only
  rw [List.foldl_nil]
  by_cases hmem : h ∈ sMid.hashes
  · simp [hmem]
  · simp [hmem, copy]

/-- Witness for C2 amended: returning via `return 0` with pending `(x, 1)`
appends `x`'s value `7` with the assignment-line step 1 even though the
counter is already 2. -/
theorem deferred_step_resolution_witness :
    ∃ s', collect_intermidiate_results noEval defaultSkipTypes [] pendingState evRetZero =
        some s' ∧
      s'.observed = resolvedMidState.observed ++
        (if PyObj.vint 7 ∈ resolvedMidState.hashes then [] else [(PyObj.vint 7, 1)]) :=
  deferred_step_resolution noEval defaultSkipTypes [] pendingState evRetZero "x" 1
    (PyObj.vint 7) (PyObj.vint 7) resolvedMidState (by decide) rfl rfl (by decide)
    (by decide) (by decide) (by decide) rfl

/-- Every record kept by `dedupByHash` has a hash outside `seen` and is the
earliest record with its hash in the input list. -/
theorem dedupByHash_find (l : List ObservedValue) (seen : List Nat)
    (r : ObservedValue) (hr : r ∈ dedupByHash l seen) :
    r.contentHash ∉ seen ∧
    l.find? (fun x => x.contentHash == r.contentHash) = some r := by
  induction l generalizing seen with
  | nil => simp [dedupByHash] at hr
  | cons y ys ih =>
    unfold dedupByHash at hr
    by_cases hy : y.contentHash ∈ seen
    · rw [if_pos hy] at hr
      obtain ⟨h1, h2⟩ := ih seen hr
      refine ⟨h1, ?_⟩
      rw [List.find?_cons_of_neg]
      · exact h2
      · simp only [beq_iff_eq]
        intro he
        exact h1 (he ▸ hy)
    · rw [if_neg hy] at hr
      rcases List.mem_cons.mp hr with rfl | hr
      · refine ⟨hy, ?_⟩
        rw [List.find?_cons_of_pos]
        simp
      · obtain ⟨h1, h2⟩ := ih (y.contentHash :: seen) hr
        have hne : y.contentHash ≠ r.contentHash := fun he =>
          h1 (he ▸ List.mem_cons_self _ _)
        refine ⟨fun hc => h1 (List.mem_cons_of_mem _ hc), ?_⟩
        rw [List.find?_cons_of_neg]
        · exact h2
        · simp only [beq_iff_eq]
          exact hne

/-- In a list with pairwise distinct hashes, the first record found for a
member's hash is that member itself. -/
theorem find_among_distinct (A : List ObservedValue)
    (hA : A.Pairwise fun r q => r.contentHash ≠ q.contentHash)
    (a : ObservedValue) (ha : a ∈ A) :
    A.find? (fun x => x.contentHash == a.contentHash) = some a := by
  induction A with
  | nil => cases ha
  | cons y ys ih =>
    rcases List.mem_cons.mp ha with rfl | ha
    · rw [List.find?_cons_of_pos]
      simp
    · have hne : y.contentHash ≠ a.contentHash := (List.pairwise_cons.mp hA).1 a ha
      rw [List.find?_cons_of_neg]
      · exact ih (List.pairwise_cons.mp hA).2 ha
      · simp only [beq_iff_eq]
        exact hne

/-- C7 (modelled from the spec, `MemoryFootprint.combine` being outside
`src/`): combining `[A, B]` sums the step counters, consists of A's records
followed by B's records offset by exactly A's step counter with
first-occurrence dedup by content hash, and when A and B both contain a
record of a given content hash, the one surviving in the combination is A's
record. -/
theorem combine_pair_spec (A B : MemoryFootprint)
    (hA : A.records.Pairwise fun r q => r.contentHash ≠ q.contentHash) :
    (MemoryFootprint.combine [A, B]).stepCounter = A.stepCounter + B.stepCounter ∧
    (MemoryFootprint.combine [A, B]).records =
      dedupByHash (A.records ++ offsetRecords A.stepCounter B.records) [] ∧
    (∀ a ∈ A.records, ∀ r ∈ (MemoryFootprint.combine [A, B]).records,
       r.contentHash = a.contentHash → r = a) := by
  have hrec : (MemoryFootprint.combine [A, B]).records =
      dedupByHash (A.records ++ offsetRecords A.stepCounter B.records) [] := by
    unfold MemoryFootprint.combine
    dsimp only
    congr 1
    unfold concatOffset concatOffset concatOffset
    rw [Nat.zero_add, List.append_nil]
    congr 1
    unfold offsetRecords
    simp
  refine ⟨?_, hrec, ?_⟩
  · unfold MemoryFootprint.combine
    simp
  · intro a ha r hr hch
    rw [hrec] at hr
    obtain ⟨-, hfind⟩ := dedupByHash_find _ _ _ hr
    rw [List.find?_append, hch] at hfind
    rw [find_among_distinct A.records hA a ha] at hfind
    simpa [Option.or] using hfind.symm

/-- Witness for C7: combining two concrete footprints that share the
content hash 20 keeps A's record `(2, step 1)` and drops B's, offsets B's
surviving record by A's two steps, and sums the counters to five. -/
theorem combine_pair_spec_witness :
    (combFootA.records.Pairwise fun r q => r.contentHash ≠ q.contentHash) ∧
    (MemoryFootprint.combine [combFootA, combFootB]).stepCounter =
      combFootA.stepCounter + combFootB.stepCounter ∧
    (MemoryFootprint.combine [combFootA, combFootB]).records =
      dedupByHash (combFootA.records ++ offsetRecords combFootA.stepCounter combFootB.records)
        [] ∧
    (∀ a ∈ combFootA.records,
       ∀ r ∈ (MemoryFootprint.combine [combFootA, combFootB]).records,
         r.contentHash = a.contentHash → r = a) ∧
    (MemoryFootprint.combine [combFootA, combFootB]).records =
      [⟨PyObj.vint 1, 0, 10⟩, ⟨PyObj.vint 2, 1, 20⟩, ⟨PyObj.vint 4, 3, 30⟩] :=
  (fun hmain => ⟨by decide, hmain.1, hmain.2.1, hmain.2.2, by decide⟩)
    (combine_pair_spec combFootA combFootB (by decide))
